import Mathlib

/-
Shallow embedding of the queryfilter library: a Go package that turns a
tagged filter struct into a parameterized SQL WHERE fragment plus an
ordered argument list.  Pure functions of the Go source (placeholder
rewriting, tag parsing, value extraction, operator dispatch, clause
building and rendering) are translated into executable Lean definitions,
and the frozen specification claims are settled as theorems about them.

Modelling conventions, stated once here:
- Go strings are Lean Strings; character-level scans work on `toList`.
- Go `int` is Lean `Int`; slice lengths are `Nat`.
- Go multiple-return `(T, error)` is `Except String T`; functions that
  return `(string, []any, error)` are modelled as the Go-style triple
  `String × List (Option Value) × Option String` where the last component
  is the error (`none` = nil error) and a `[]any` argument is an
  `Option Value` (`none` = Go nil interface value).
- reflect.Value data is modelled by the closed type `FieldVal` below;
  floating-point fields and pointer-typed slice elements are outside the
  embedding (no claim mentions them).
-/

namespace QueryFilter

/- strings.Cut(s, sep) for a one-character separator: split at the first
occurrence of the character, returning `none` when it does not occur
(Go returns found=false there). -/
def cutChar (c : Char) : List Char → Option (List Char × List Char)
  | [] => none
  | x :: xs =>
    if x = c then some ([], xs)
    else
      match cutChar c xs with
      | none => none
      | some (a, b) => some (x :: a, b)

theorem cutChar_of_not_mem (c : Char) (l : List Char) (h : c ∉ l) :
    cutChar c l = none := by
  induction l with
  | nil => rfl
  | cons x xs ih =>
    simp only [List.mem_cons, not_or] at h
    simp only [cutChar, if_neg (fun hx : x = c => h.1 hx.symm), ih h.2]

theorem cutChar_append (c : Char) (a b : List Char) (h : c ∉ a) :
    cutChar c (a ++ c :: b) = some (a, b) := by
  induction a with
  | nil => simp [cutChar]
  | cons x xs ih =>
    simp only [List.mem_cons, not_or] at h
    rw [List.cons_append]
    simp only [cutChar]
    rw [if_neg (fun hx : x = c => h.1 hx.symm), ih h.2]

/- Small helpers about the String structure, used to move between the
character-list level and the String level. -/
theorem string_mk_append (a b : List Char) :
    String.mk a ++ String.mk b = String.mk (a ++ b) := rfl

theorem string_mk_toList (s : String) : String.mk s.toList = s := rfl

theorem string_toList_append (s t : String) :
    (s ++ t).toList = s.toList ++ t.toList := rfl

theorem string_empty_append (s : String) : String.mk [] ++ s = s := by
  cases s
  rfl

theorem string_append_assoc (a b c : String) :
    a ++ b ++ c = a ++ (b ++ c) := by
  cases a with
  | mk la =>
    cases b with
    | mk lb =>
      cases c with
      | mk lc =>
        show String.mk (la ++ lb ++ lc) = String.mk (la ++ (lb ++ lc))
        rw [List.append_assoc]

theorem string_singleton_mk (x : Char) (xs : List Char) :
    String.singleton x ++ String.mk xs = String.mk (x :: xs) := rfl

/- ChainingStrategy is a Go string type; its two constants. -/
def ChainingStrategyOr : String := "OR"
def ChainingStrategyAnd : String := "AND"

/- PlaceholderStrategy is a Go int type; the three iota constants. -/
def PlaceholderStrategyQuestionmark : Int := 0
def PlaceholderStrategyColon : Int := 1
def PlaceholderStrategyDollar : Int := 2

def DefaultChainingStrategy : String := ChainingStrategyAnd
def DefaultPlaceholderStrategy : Int := PlaceholderStrategyQuestionmark
def DefaultPlaceholderStategyIndexOffset : Int := 1

/- Opts as built by DefaultOpts and the option functions; option functions
only overwrite fields, so a call site is modelled by the final Opts value. -/
structure Opts where
  chainingStrategy : String
  placeholderStrategy : Int
  placeholderOffset : Int
  deriving DecidableEq

def DefaultOpts : Opts :=
  { chainingStrategy := DefaultChainingStrategy
    placeholderStrategy := DefaultPlaceholderStrategy
    placeholderOffset := DefaultPlaceholderStategyIndexOffset }

/- placeholder.go: the replacer functions.  `makeReplacer` prints
prefix ++ decimal index, matching fmt.Sprintf with percent-s percent-d. -/
def makeReplacer (pre : String) : Int → String :=
  fun i => pre ++ toString i

def defaultReplacer : Int → String := fun _ => "?"
def dollarReplacer : Int → String := makeReplacer "$"
def colonReplacer : Int → String := makeReplacer ":"

/- placeholder.go `replace`: the Go loop repeatedly takes the chunk before
the next question mark (strings.Index), writes it, writes fn n, and
continues after the question mark with n+1; when no question mark remains
it writes the rest.  The per-character recursion below performs the same
writes in the same order: a non-placeholder character is copied verbatim
and a question mark becomes fn n with n incremented. -/
def replaceChars (fn : Int → String) : List Char → Int → String
  | [], _ => ""
  | c :: rest, n =>
    if c = '?' then fn n ++ replaceChars fn rest (n + 1)
    else String.singleton c ++ replaceChars fn rest n

def replace (q : String) (placeholderNumberOffset : Int) (fn : Int → String) :
    String :=
  replaceChars fn q.toList placeholderNumberOffset

/- queryfilter.go `applyPlaceholders`: dispatch on the strategy constant;
the Go switch has an implicit default returning the empty string. -/
def applyPlaceholders (q : String) (o : Opts) : String :=
  if o.placeholderStrategy = PlaceholderStrategyQuestionmark then
    replace q o.placeholderOffset defaultReplacer
  else if o.placeholderStrategy = PlaceholderStrategyColon then
    replace q o.placeholderOffset colonReplacer
  else if o.placeholderStrategy = PlaceholderStrategyDollar then
    replace q o.placeholderOffset dollarReplacer
  else ""

theorem replaceChars_append_free (fn : Int → String) (a b : List Char)
    (n : Int) (h : '?' ∉ a) :
    replaceChars fn (a ++ b) n = String.mk a ++ replaceChars fn b n := by
  induction a with
  | nil =>
    rw [List.nil_append, string_empty_append]
  | cons x xs ih =>
    simp only [List.mem_cons, not_or] at h
    rw [List.cons_append]
    show (if x = '?' then _ else
        String.singleton x ++ replaceChars fn (xs ++ b) n) = _
    rw [if_neg (fun hx : x = '?' => h.1 hx.symm), ih h.2,
      ← string_singleton_mk, string_append_assoc]

theorem replaceChars_no_placeholder (fn : Int → String) (l : List Char)
    (n : Int) (h : '?' ∉ l) : replaceChars fn l n = String.mk l := by
  have h2 := replaceChars_append_free fn l [] n h
  rw [List.append_nil] at h2
  rw [h2]
  show String.mk l ++ String.mk [] = String.mk l
  rw [string_mk_append, List.append_nil]

theorem replaceChars_chunk (fn : Int → String) (a b : List Char) (n : Int)
    (h : '?' ∉ a) :
    replaceChars fn (a ++ '?' :: b) n
      = String.mk a ++ fn n ++ replaceChars fn b (n + 1) := by
  rw [replaceChars_append_free fn a ('?' :: b) n h]
  show String.mk a ++ (if ('?' : Char) = '?' then
      fn n ++ replaceChars fn b (n + 1) else _) = _
  rw [if_pos rfl, string_append_assoc]

theorem replaceChars_default_id (l : List Char) (n : Int) :
    replaceChars defaultReplacer l n = String.mk l := by
  induction l generalizing n with
  | nil => rfl
  | cons x xs ih =>
    by_cases hx : x = '?'
    · subst hx
      show (if ('?' : Char) = '?' then
          defaultReplacer n ++ replaceChars defaultReplacer xs (n + 1)
        else _) = _
      rw [if_pos rfl, ih]
      show String.singleton '?' ++ String.mk xs = _
      rw [string_singleton_mk]
    · show (if x = '?' then _ else
          String.singleton x ++ replaceChars defaultReplacer xs n) = _
      rw [if_neg hx, ih, string_singleton_mk]

/- reflect.Kind, restricted to the kinds the library can meet here, plus
reflect.Kind.String() for the modelled kinds. -/
inductive Kind
  | int
  | uint
  | str
  | bool
  | slice
  | array
  | struct
  | invalid
  deriving DecidableEq

def Kind.goString : Kind → String
  | .int => "int"
  | .uint => "uint"
  | .str => "string"
  | .bool => "bool"
  | .slice => "slice"
  | .array => "array"
  | .struct => "struct"
  | .invalid => "invalid"

/- One element of a Go slice/array field.  Element kinds are modelled at
the canonical widths int/uint/bool plus string; Go slices are homogeneous
but the model allows mixed lists, which only enlarges the input space. -/
inductive Elem
  | eInt (i : Int)
  | eUint (n : Nat)
  | eStr (s : String)
  | eBool (b : Bool)
  deriving DecidableEq

/- reflect.Value.String() on an element: the string itself for a string
element; for every other kind Go returns the constant placeholder text
"<T Value>" built from the element's type, independent of its value. -/
def Elem.goString : Elem → String
  | .eStr s => s
  | .eInt _ => "<int Value>"
  | .eUint _ => "<uint Value>"
  | .eBool _ => "<bool Value>"

/- The normalized values readValue can produce (the dynamic `any` result):
v.Int() widened signed integers, v.Uint() widened unsigned integers,
strings, booleans, the []string built from a slice/array, and time.Time
values (kept opaque; no claim inspects a timestamp). -/
inductive Value
  | vInt (i : Int)
  | vUint (n : Nat)
  | vStr (s : String)
  | vBool (b : Bool)
  | vStrList (ss : List String)
  | vTime
  deriving DecidableEq

/- readValue on a slice element (used by readSliceElems).  For the
modelled element kinds the Go switch always succeeds. -/
def Elem.read : Elem → Value
  | .eInt i => .vInt i
  | .eUint n => .vUint n
  | .eStr s => .vStr s
  | .eBool b => .vBool b

/- A field's runtime value after the pointer dereference that readValue
and derefIfApplicable perform: `nilPtr` is the invalid reflect.Value a nil
pointer dereferences to; all other constructors are the dereferenced
value.  A nil (unset) non-pointer slice has kind Slice and length 0 in Go,
so it embeds as `fSlice []`.  `fStruct` is any struct other than
time.Time. -/
inductive FieldVal
  | nilPtr
  | fInt (i : Int)
  | fUint (n : Nat)
  | fStr (s : String)
  | fBool (b : Bool)
  | fSlice (es : List Elem)
  | fTime
  | fStruct
  deriving DecidableEq

def FieldVal.kind : FieldVal → Kind
  | .nilPtr => .invalid
  | .fInt _ => .int
  | .fUint _ => .uint
  | .fStr _ => .str
  | .fBool _ => .bool
  | .fSlice _ => .slice
  | .fTime => .struct
  | .fStruct => .struct

/- queryfilter.go readValue: dereference (already reflected in FieldVal),
nil pointer gives (nil, nil); otherwise switch on the kind.  The
slice/array branch builds a []string out of v.Index(i).String(). -/
def readValue : FieldVal → Except String (Option Value)
  | .nilPtr => .ok none
  | .fInt i => .ok (some (.vInt i))
  | .fUint n => .ok (some (.vUint n))
  | .fStr s => .ok (some (.vStr s))
  | .fBool b => .ok (some (.vBool b))
  | .fSlice es => .ok (some (.vStrList (es.map Elem.goString)))
  | .fTime => .ok (some .vTime)
  | .fStruct => .error ("structs are not supported, only time.Time")

/- queryfilter.go readSliceElems: read every element through readValue.
On the modelled element kinds the per-element readValue cannot fail, so
the error branch of the Go loop is never taken. -/
def readSliceElems (es : List Elem) : Except String (List Value) :=
  .ok (es.map Elem.read)

/- summarize.go: render a list of labels as "a, b or c"; a single label is
returned as-is.  The Go loop prepends ", " before middle items and " or "
before the last one. -/
def summarize (items : List String) : String :=
  match items with
  | [item] => item
  | _ =>
    (List.range items.length).foldl
      (fun b i =>
        let b := if 0 < i && i < items.length - 1 then b ++ ", " else b
        let b := if i == items.length - 1 then b ++ " or " else b
        b ++ items.getD i "")
      ""

/- clause.go Clause: column, operator name, normalized value (Go `any`,
nil = `none`), and the cached dereferenced reflect.Value. -/
structure Clause where
  col : String
  op : String
  val : Option Value
  reflectedValue : FieldVal
  deriving DecidableEq

/- The zero Clause{} left in a slot of the preallocated clause slice when
a field carries no filter tag (zero strings, nil any, invalid value). -/
def Clause.zero : Clause :=
  { col := "", op := "", val := none, reflectedValue := .nilPtr }

/- clause.go AssertTypeOneOf: nil error when the cached value's kind is
among the expected ones, otherwise the formatted mismatch error. -/
def Clause.assertTypeOneOf (c : Clause) (kinds : List Kind) :
    Option String :=
  if kinds.contains c.reflectedValue.kind then none
  else
    some ("expected " ++ summarize (kinds.map Kind.goString) ++ "; got "
      ++ c.reflectedValue.kind.goString ++ " for operation " ++ c.op)

/- placeholder.go PlaceholderList: "?" for n = 1, otherwise
strings.Repeat(",?", n) with its first byte dropped (both characters are
one byte, so the byte drop is a character drop). -/
def placeholderList (n : Nat) : String :=
  if n == 1 then "?"
  else String.mk (((List.replicate n [',', '?']).flatten).drop 1)

/- operator.go: the built-in operators.  An operator returns the Go triple
(fragment, args, error). -/
def SimpleOperator (r : String) :
    Clause → String × List (Option Value) × Option String :=
  fun c => (r, [c.val], none)

def opIn (c : Clause) : String × List (Option Value) × Option String :=
  match c.assertTypeOneOf [Kind.slice, Kind.array] with
  | some e => ("", [], some e)
  | none =>
    match c.reflectedValue with
    | .fSlice es =>
      if es.length == 0 then ("IN(NULL)", [], none)
      else
        match readSliceElems es with
        | .error e => ("", [], some e)
        | .ok elems =>
          ("IN(" ++ placeholderList es.length ++ ")", elems.map some, none)
    | _ =>
      -- unreachable once the kind assertion passed; Go would panic in
      -- reflect.Value.Len here
      ("", [], some ("panic: Len on non-slice value"))

def opNotIn (c : Clause) : String × List (Option Value) × Option String :=
  match c.assertTypeOneOf [Kind.slice, Kind.array] with
  | some e => ("", [], some e)
  | none =>
    match c.reflectedValue with
    | .fSlice es =>
      if es.length == 0 then ("NOT IN(NULL)", [], none)
      else
        match readSliceElems es with
        | .error e => ("", [], some e)
        | .ok elems =>
          ("NOT IN(" ++ placeholderList es.length ++ ")", elems.map some,
            none)
    | _ => ("", [], some ("panic: Len on non-slice value"))

def opBetween (c : Clause) :
    String × List (Option Value) × Option String :=
  match c.assertTypeOneOf [Kind.slice, Kind.array] with
  | some e => ("", [], some e)
  | none =>
    match c.reflectedValue with
    | .fSlice es =>
      if es.length < 2 then
        ("", [], some ("operation between expects two elements in its slice"))
      else
        match readSliceElems es with
        | .error e => ("", [], some e)
        | .ok elems => ("BETWEEN ? AND ?", (elems.take 2).map some, none)
    | _ => ("", [], some ("panic: Len on non-slice value"))

def opIsNull (c : Clause) : String × List (Option Value) × Option String :=
  match c.reflectedValue with
  | .fBool b => if b then ("IS NULL", [], none) else ("IS NOT NULL", [], none)
  | _ => ("", [], some ("panic: Bool on non-bool value"))

def opNotNull (c : Clause) : String × List (Option Value) × Option String :=
  match c.reflectedValue with
  | .fBool b => if b then ("IS NOT NULL", [], none) else ("IS NULL", [], none)
  | _ => ("", [], some ("panic: Bool on non-bool value"))

/- The Operators map in its initial state: exactly the built-ins that
operator.go's init registers; lookup of any other name misses.  The
claims under verification concern this state (no later RegisterOperator
call is involved). -/
def Operators (name : String) :
    Option (Clause → String × List (Option Value) × Option String) :=
  match name with
  | "eq" => some (SimpleOperator "= ?")
  | "gt" => some (SimpleOperator "> ?")
  | "gte" => some (SimpleOperator ">= ?")
  | "lte" => some (SimpleOperator "<= ?")
  | "lt" => some (SimpleOperator "< ?")
  | "in" => some opIn
  | "not-in" => some opNotIn
  | "between" => some opBetween
  | "is-null" => some opIsNull
  | "not-null" => some opNotNull
  | _ => none

/- strings.TrimSpace: drop whitespace characters from both ends of the
string (Go trims the Unicode space class; operator names only meet the
ASCII whitespace that Char.isWhitespace covers). -/
def trimSpace (s : String) : String :=
  String.mk
    (((s.toList.dropWhile Char.isWhitespace).reverse.dropWhile
        Char.isWhitespace).reverse)

/- queryfilter.go parseTag. -/
def parseTag (tag : String) : Except String (String × String) :=
  match cutChar ',' tag.toList with
  | none => .ok (tag, "eq")
  | some (col, operatorPart) =>
    match cutChar '=' operatorPart with
    | none => .error ("incorrectly formatted tag: " ++ tag)
    | some (_, op) => .ok (String.mk col, trimSpace (String.mk op))

/- queryfilter.go derefIfApplicable: FieldVal already models the
dereferenced view (a nil pointer is `nilPtr`), so this is the identity. -/
def derefIfApplicable (v : FieldVal) : FieldVal := v

/- One visible struct field: the result of Tag.Lookup(TagName) and the
field's value.  FieldByName on a flat (non-embedded) struct is always
valid, so the IsValid-continue branch of buildClauses never fires. -/
structure Field where
  tag : Option String
  value : FieldVal
  deriving DecidableEq

/- The argument of ToSQL/buildClauses: any Go value; only a struct kind
passes the entry check. -/
inductive GoInput
  | struct (fields : List Field)
  | nonStruct
  deriving DecidableEq

/- The loop body of buildClauses over reflect.VisibleFields: the clause
slice is preallocated with one zero Clause per field; an untagged field
leaves its slot untouched; a tagged field fills its slot from parseTag
and readValue; the first error aborts with no partial slice. -/
def buildClausesLoop : List Field → Except String (List Clause)
  | [] => .ok []
  | fld :: rest =>
    match fld.tag with
    | none =>
      match buildClausesLoop rest with
      | .error e => .error e
      | .ok cs => .ok (Clause.zero :: cs)
    | some tag =>
      match parseTag tag with
      | .error e => .error e
      | .ok (column, operator) =>
        match readValue fld.value with
        | .error e => .error e
        | .ok val =>
          match buildClausesLoop rest with
          | .error e => .error e
          | .ok cs =>
            .ok ({ col := column, op := operator, val := val,
                   reflectedValue := derefIfApplicable fld.value } :: cs)

def buildClauses : GoInput → Except String (List Clause)
  | .nonStruct => .error ("unable to build filter: provided value is not a struct")
  | .struct fields => buildClausesLoop fields

/- queryfilter.go toSQL's loop, with the segs/args accumulators made
explicit: nil-valued clauses are skipped; an unknown operator name or an
operator error returns ("", nil, err) immediately, discarding the
accumulators. -/
def toSQLLoop : List Clause → List String → List (Option Value) →
    List String × List (Option Value) × Option String
  | [], segs, args => (segs, args, none)
  | c :: rest, segs, args =>
    if c.val.isNone then toSQLLoop rest segs args
    else
      match Operators c.op with
      | none => ([], [], some ("operator " ++ c.op ++ " is not available"))
      | some operator =>
        match operator c with
        | (_, _, some e) => ([], [], some e)
        | (sql, newArgs, none) =>
          toSQLLoop rest (segs ++ [c.col ++ " " ++ sql]) (args ++ newArgs)

def toSQL (clauses : List Clause) (o : Opts) :
    String × List (Option Value) × Option String :=
  match toSQLLoop clauses [] [] with
  | (segs, args, none) =>
    (String.intercalate (" " ++ o.chainingStrategy ++ " ") segs, args, none)
  | (_, _, some e) => ("", [], some e)

/- queryfilter.go ToSQL: build clauses, render, then always run the
placeholder rewrite over the fragment (also over the empty fragment of an
error return).  The option functions have already been folded into `o`. -/
def ToSQL (f : GoInput) (o : Opts) :
    String × List (Option Value) × Option String :=
  match buildClauses f with
  | .error e => ("", [], some e)
  | .ok clauses =>
    match toSQL clauses o with
    | (sql, args, err) => (applyPlaceholders sql o, args, err)

/- ------------------------------------------------------------------ -/
/- Helper lemmas about the rendering loop and the placeholder layer.   -/
/- ------------------------------------------------------------------ -/

theorem toSQLLoop_all_nil (cs : List Clause) (h : ∀ c ∈ cs, c.val = none)
    (segs : List String) (args : List (Option Value)) :
    toSQLLoop cs segs args = (segs, args, none) := by
  induction cs generalizing segs args with
  | nil => rfl
  | cons c rest ih =>
    have hc : c.val = none := h c (List.mem_cons_self c rest)
    have hrest : ∀ d ∈ rest, d.val = none :=
      fun d hd => h d (List.mem_cons_of_mem c hd)
    show (if c.val.isNone then toSQLLoop rest segs args else _) = _
    rw [hc]
    exact ih hrest segs args

theorem toSQLLoop_append_ok (pre : List Clause)
    (hpre : ∀ d ∈ pre, d.val = none ∨
      ∃ f, Operators d.op = some f ∧ (f d).2.2 = none) :
    ∀ (rest : List Clause) (segs : List String)
      (args : List (Option Value)),
      ∃ segs2 args2,
        toSQLLoop (pre ++ rest) segs args = toSQLLoop rest segs2 args2 := by
  induction pre with
  | nil => exact fun rest segs args => ⟨segs, args, rfl⟩
  | cons d pre ih =>
    intro rest segs args
    have hd := hpre d (List.mem_cons_self d pre)
    have hpre2 : ∀ x ∈ pre, x.val = none ∨
        ∃ f, Operators x.op = some f ∧ (f x).2.2 = none :=
      fun x hx => hpre x (List.mem_cons_of_mem d hx)
    rw [List.cons_append]
    simp only [toSQLLoop]
    rcases hdv : d.val with _ | v
    · exact ih hpre2 rest segs args
    · rcases hd with hnone | ⟨f, hf, hok⟩
      · rw [hdv] at hnone
        exact absurd hnone (by simp)
      · rcases hfd : f d with ⟨sql, rest2⟩
        rcases rest2 with ⟨nargs, err⟩
        rw [hfd] at hok
        have herr : err = none := hok
        subst herr
        simp only [Option.isNone_some, Bool.false_eq_true, if_false, hf,
          hfd]
        exact ih hpre2 rest (segs ++ [d.col ++ " " ++ sql]) (args ++ nargs)


theorem applyPlaceholders_empty (o : Opts) : applyPlaceholders "" o = "" := by
  unfold applyPlaceholders
  split_ifs <;> rfl

/- Spec-side description of an n-element anonymous placeholder list:
n question marks joined by commas (clearly named; compared against the
source's placeholderList below). -/
def commaJoinedPlaceholders : Nat → List Char
  | 0 => []
  | 1 => ['?']
  | n + 2 => '?' :: ',' :: commaJoinedPlaceholders (n + 1)

theorem flatten_replicate_pair (n : Nat) :
    (List.replicate (n + 1) [',', '?']).flatten
      = ',' :: commaJoinedPlaceholders (n + 1) := by
  induction n with
  | zero => rfl
  | succ m ih =>
    rw [List.replicate_succ, List.flatten_cons, ih]
    rfl

theorem placeholderList_eq_commaJoined (n : Nat) (h : 1 ≤ n) :
    placeholderList n = String.mk (commaJoinedPlaceholders n) := by
  match n, h with
  | 1, _ => rfl
  | (m + 2), _ =>
    show (if (m + 2 : Nat) == 1 then "?"
      else String.mk (((List.replicate (m + 2) [',', '?']).flatten).drop 1))
        = _
    rw [if_neg (by simp)]
    rw [show m + 2 = (m + 1) + 1 from rfl, flatten_replicate_pair (m + 1)]
    rfl

/- ------------------------------------------------------------------ -/
/- Claim theorems.                                                     -/
/- ------------------------------------------------------------------ -/

/-- C9: for every input fragment and every placeholder start index, the
anonymous (question-mark) dialect rewrite is the identity: each
placeholder occurrence is replaced by "?" itself and everything else is
copied, so applyPlaceholders returns the input unchanged. -/
theorem applyPlaceholders_questionmark_id (q : String) (cstrat : String)
    (k : Int) :
    applyPlaceholders q
      { chainingStrategy := cstrat,
        placeholderStrategy := PlaceholderStrategyQuestionmark,
        placeholderOffset := k } = q := by
  unfold applyPlaceholders
  rw [if_pos rfl]
  unfold replace
  rw [replaceChars_default_id, string_mk_toList]

/-- C5: the numbered dialects rewrite the question-mark occurrences left
to right into the dialect text followed by a counter that starts at the
configured offset and increments by one per occurrence, preserving every
other character exactly: the first two conjuncts characterize one loop
step (a placeholder-free chunk is copied and the placeholder becomes the
dialect text then the counter) and the termination step (a
placeholder-free tail is copied verbatim); the third is the dialect
dispatch of applyPlaceholders; the rest are the spec's concrete examples
for dollar offset 1, dollar offset 5 and colon offset 1. -/
theorem replace_numbered_spec :
    (∀ (p : String) (a b : List Char) (k : Int), '?' ∉ a →
      replaceChars (makeReplacer p) (a ++ '?' :: b) k
        = String.mk a ++ (p ++ toString k)
            ++ replaceChars (makeReplacer p) b (k + 1)) ∧
    (∀ (p : String) (l : List Char) (k : Int), '?' ∉ l →
      replaceChars (makeReplacer p) l k = String.mk l) ∧
    (∀ (q : String) (k : Int) (cstrat : String),
      applyPlaceholders q
        { chainingStrategy := cstrat,
          placeholderStrategy := PlaceholderStrategyDollar,
          placeholderOffset := k } = replace q k dollarReplacer ∧
      applyPlaceholders q
        { chainingStrategy := cstrat,
          placeholderStrategy := PlaceholderStrategyColon,
          placeholderOffset := k } = replace q k colonReplacer) ∧
    replace ("name = ? AND color = ?") 1 dollarReplacer
      = "name = $1 AND color = $2" ∧
    replace ("name = ? AND color = ?") 5 dollarReplacer
      = "name = $5 AND color = $6" ∧
    replace ("name = ? AND color = ?") 1 colonReplacer
      = "name = :1 AND color = :2" := by
  refine ⟨?_, ?_, ?_, ?_, ?_, ?_⟩
  · intro p a b k h
    exact replaceChars_chunk (makeReplacer p) a b k h
  · intro p l k h
    exact replaceChars_no_placeholder (makeReplacer p) l k h
  · exact fun q k cstrat => ⟨rfl, rfl⟩
  · rfl
  · rfl
  · rfl

/-- C5 witness: one loop step of the dollar dialect at a concrete chunk,
placeholder and offset. -/
theorem replace_numbered_spec_witness :
    replaceChars (makeReplacer "$") (['x'] ++ '?' :: ['y']) 7
      = String.mk ['x'] ++ ("$" ++ toString (7 : Int))
          ++ replaceChars (makeReplacer "$") ['y'] (7 + 1) :=
  replace_numbered_spec.1 "$" ['x'] ['y'] 7 (by decide)

/-- C8: a record none of whose built clauses carries a set value renders
to the empty fragment and the empty argument list with a nil error: every
clause is skipped by the nil-value check, the join of zero segments is
empty, and the placeholder rewrite of the empty string is empty. -/
theorem ToSQL_all_nil_empty (fields : List Field) (cs : List Clause)
    (o : Opts) (hb : buildClauses (.struct fields) = .ok cs)
    (hnil : ∀ c ∈ cs, c.val = none) :
    ToSQL (.struct fields) o = ("", [], none) := by
  have hts : toSQL cs o = ("", [], none) := by
    unfold toSQL
    rw [toSQLLoop_all_nil cs hnil [] []]
    rfl
  simp only [ToSQL, hb, hts, applyPlaceholders_empty]

/-- C8 witness: a filter with one tagged field holding a nil pointer and
one untagged field renders to the empty fragment with no arguments and a
nil error. -/
theorem ToSQL_all_nil_empty_witness :
    ToSQL (.struct [⟨some ("name"), .nilPtr⟩, ⟨none, .fStr "z"⟩])
        DefaultOpts = ("", [], none) :=
  ToSQL_all_nil_empty [⟨some ("name"), .nilPtr⟩, ⟨none, .fStr "z"⟩]
    [⟨"name", "eq", none, .nilPtr⟩, Clause.zero] DefaultOpts rfl
    (by decide)

/-- C2 counterexample: a clause list whose first present-valued clause
names the unregistered operator "foo" and whose second names the
unregistered operator "bar".  Rendering returns the error naming "foo",
so for the clause naming "bar" — a clause with a present value and an
unregistered operator name contained in the sequence — the returned error
does not name that clause's operator, contrary to the claim read over
every such clause of the sequence. -/
theorem toSQL_unknown_operator_cex :
    toSQL [⟨"a", "foo", some (.vInt 1), .fInt 1⟩,
           ⟨"b", "bar", some (.vInt 2), .fInt 2⟩] DefaultOpts
      = ("", [], some ("operator foo is not available")) ∧
    ("operator foo is not available" : String)
      ≠ ("operator bar is not available" : String) :=
  ⟨rfl, by decide⟩

/-- C2 (amended): when the first failing clause of the render is one with
a present value and an unregistered operator name — every earlier clause
is either skipped as nil-valued or succeeds through a registered
operator — toSQL aborts with exactly the error "operator name is not
available" built from that clause's operator name, and returns the empty
fragment and no arguments alongside it: the segments and arguments
accumulated from earlier clauses are discarded. -/
theorem toSQL_unknown_operator_error (pre post : List Clause) (c : Clause)
    (o : Opts) (hval : c.val ≠ none) (hop : Operators c.op = none)
    (hpre : ∀ d ∈ pre, d.val = none ∨
      ∃ f, Operators d.op = some f ∧ (f d).2.2 = none) :
    toSQL (pre ++ c :: post) o
      = ("", [], some ("operator " ++ c.op ++ " is not available")) := by
  obtain ⟨segs2, args2, hloop⟩ :=
    toSQLLoop_append_ok pre hpre (c :: post) [] []
  unfold toSQL
  rw [hloop]
  have hv : c.val.isNone = false := by
    rcases hcv : c.val with _ | v
    · exact absurd hcv hval
    · rfl
  simp only [toSQLLoop, hv, Bool.false_eq_true, if_false, hop]

/-- C2 witness: a single clause with a present value and the unregistered
operator name "foo". -/
theorem toSQL_unknown_operator_error_witness :
    toSQL ([] ++ (⟨"a", "foo", some (.vInt 1), .fInt 1⟩ : Clause) :: [])
        DefaultOpts
      = ("", [], some ("operator " ++ "foo" ++ " is not available")) :=
  toSQL_unknown_operator_error [] [] ⟨"a", "foo", some (.vInt 1), .fInt 1⟩
    DefaultOpts (by decide) rfl (by simp)

/-- C4: on a clause whose cached value is a sequence, the built-in
between operator errors when the sequence has fewer than two elements
(the arity error whose message reads "operation between expects two
elements in its slice", containing the claim's quoted text), and with two
or more elements returns the fragment "BETWEEN ? AND ?" with exactly the
first two elements, in order, as arguments, silently ignoring any
elements beyond the second. -/
theorem between_operator_spec (c : Clause) (es : List Elem)
    (h : c.reflectedValue = .fSlice es) :
    (es.length < 2 → opBetween c = ("", [],
      some ("operation " ++ "between expects two elements"
        ++ " in its slice"))) ∧
    (2 ≤ es.length → opBetween c = ("BETWEEN ? AND ?",
      (es.take 2).map (fun e => some e.read), none)) := by
  have hassert : c.assertTypeOneOf [Kind.slice, Kind.array] = none := by
    unfold Clause.assertTypeOneOf
    rw [h]
    rfl
  constructor
  · intro hlt
    simp only [opBetween, hassert, h, if_pos hlt]
    rfl
  · intro hge
    simp only [opBetween, hassert, h, if_neg (Nat.not_lt.mpr hge),
      readSliceElems]
    simp only [List.map_take, List.map_map]
    rfl

/-- C4 witness: between on a three-element sequence keeps the first two
elements and drops the third. -/
theorem between_operator_spec_witness :
    opBetween ⟨"price", "between",
        some (.vStrList ["<int Value>", "<int Value>", "<int Value>"]),
        .fSlice [.eInt 10, .eInt 30, .eInt 99]⟩
      = ("BETWEEN ? AND ?", [some (.vInt 10), some (.vInt 30)], none) :=
  (between_operator_spec ⟨"price", "between",
      some (.vStrList ["<int Value>", "<int Value>", "<int Value>"]),
      .fSlice [.eInt 10, .eInt 30, .eInt 99]⟩
    [.eInt 10, .eInt 30, .eInt 99] rfl).2 (by decide)

/-- C3: the built-in in operator, on a clause normalized from a sequence
field: with n at least 1 elements it renders "IN(" then n comma-joined
anonymous placeholders then ")" and passes exactly the sequence's n
elements, in order, as arguments; placeholderList n is proved equal to
the comma-joined placeholder list; the empty sequence renders "IN(NULL)"
with zero arguments; a clause whose cached value is not a slice or array
returns the type-mismatch error; and the spec's concrete example renders
color IN(?,?,?) with the three color strings in order. -/
theorem in_operator_spec :
    (∀ (c : Clause) (es : List Elem),
      c.val = some (.vStrList (es.map Elem.goString)) →
      c.reflectedValue = .fSlice es → es ≠ [] →
      opIn c = ("IN(" ++ placeholderList es.length ++ ")",
        es.map (fun e => some e.read), none)) ∧
    (∀ n : Nat, 1 ≤ n →
      placeholderList n = String.mk (commaJoinedPlaceholders n)) ∧
    (∀ c : Clause, c.val = some (.vStrList []) →
      c.reflectedValue = .fSlice [] → opIn c = ("IN(NULL)", [], none)) ∧
    (∀ c : Clause, c.reflectedValue.kind ≠ Kind.slice →
      c.reflectedValue.kind ≠ Kind.array →
      opIn c = ("", [], some ("expected " ++ "slice or array" ++ "; got "
        ++ c.reflectedValue.kind.goString ++ " for operation " ++ c.op))) ∧
    ToSQL (.struct [⟨some ("color,op=in"),
        .fSlice [.eStr "yellow", .eStr "orange", .eStr "hot-pink"]⟩])
        DefaultOpts
      = ("color IN(?,?,?)",
         [some (.vStr "yellow"), some (.vStr "orange"),
          some (.vStr "hot-pink")], none) := by
  refine ⟨?_, placeholderList_eq_commaJoined, ?_, ?_, ?_⟩
  · intro c es hval h hne
    have hassert : c.assertTypeOneOf [Kind.slice, Kind.array] = none := by
      unfold Clause.assertTypeOneOf
      rw [h]
      rfl
    have hlen : (es.length == 0) = false := by
      cases es with
      | nil => exact absurd rfl hne
      | cons e es2 => rfl
    simp only [opIn, hassert, h, hlen, Bool.false_eq_true, if_false,
      readSliceElems]
    simp [List.map_map, Function.comp]
  · intro c hval h
    have hassert : c.assertTypeOneOf [Kind.slice, Kind.array] = none := by
      unfold Clause.assertTypeOneOf
      rw [h]
      rfl
    simp only [opIn, hassert, h]
    rfl
  · intro c h1 h2
    have hcont : ([Kind.slice, Kind.array].contains
        c.reflectedValue.kind) = false := by
      cases hk : c.reflectedValue.kind
      case slice => exact absurd hk h1
      case array => exact absurd hk h2
      all_goals rfl
    unfold opIn Clause.assertTypeOneOf
    simp only [hcont, Bool.false_eq_true, if_false]
    rfl
  · rfl

/-- C3 witness: the in operator on a clause built from a two-element
string slice. -/
theorem in_operator_spec_witness :
    opIn ⟨"color", "in", some (.vStrList ["a", "b"]),
        .fSlice [.eStr "a", .eStr "b"]⟩
      = ("IN(" ++ placeholderList 2 ++ ")",
         [some (.vStr "a"), some (.vStr "b")], none) :=
  in_operator_spec.1
    ⟨"color", "in", some (.vStrList ["a", "b"]),
      .fSlice [.eStr "a", .eStr "b"]⟩
    [.eStr "a", .eStr "b"] rfl rfl (by decide)

/-- C10: a tagged non-pointer slice field whose value is the nil slice is
not treated as an absent filter: the extractor returns the present empty
string sequence (not Go nil), such a clause passes the nil-value skip,
and under the in operator the rendered fragment contains
column IN(NULL) while the clause contributes no arguments — shown
end-to-end next to an age clause that does contribute one. -/
theorem nil_slice_in_null_spec :
    readValue (FieldVal.fSlice []) = .ok (some (.vStrList [])) ∧
    (some (Value.vStrList []) ≠ (none : Option Value)) ∧
    (∀ c : Clause, c.reflectedValue = .fSlice [] →
      opIn c = ("IN(NULL)", [], none)) ∧
    ToSQL (.struct [⟨some ("age"), .fInt 21⟩,
        ⟨some ("color,op=in"), .fSlice []⟩]) DefaultOpts
      = ("age = ? AND color IN(NULL)", [some (.vInt 21)], none) := by
  refine ⟨rfl, by decide, ?_, rfl⟩
  intro c h
  have hassert : c.assertTypeOneOf [Kind.slice, Kind.array] = none := by
    unfold Clause.assertTypeOneOf
    rw [h]
    rfl
  simp only [opIn, hassert, h]
  rfl

/-- C10 witness: the in operator applied to the clause a nil slice field
builds. -/
theorem nil_slice_in_null_spec_witness :
    opIn ⟨"color", "in", some (.vStrList []), .fSlice []⟩
      = ("IN(NULL)", [], none) :=
  nil_slice_in_null_spec.2.2.1
    ⟨"color", "in", some (.vStrList []), .fSlice []⟩ rfl

/-- C6 counterexample: the tag "col,xx=gt" contains a comma and its part
after the comma is not a well-formed op= segment (its key is "xx"), yet
parseTag accepts it — returning column "col" and operator "gt" — and
clause building succeeds rather than failing with a malformed-tag
error. -/
theorem parseTag_malformed_key_cex :
    parseTag ("col,xx=gt") = .ok ("col", "gt") ∧
    buildClauses (.struct [⟨some ("col,xx=gt"), .fInt 3⟩])
      = .ok [⟨"col", "gt", some (.vInt 3), .fInt 3⟩] :=
  ⟨rfl, rfl⟩

/-- C6 (amended): a tag without a comma parses to the whole tag as column
with the default operator "eq"; a tag with a comma fails with the
malformed-tag error naming the raw tag exactly when the part after the
first comma contains no equals sign; when it does contain one, the
whitespace-trimmed text after the first equals sign becomes the operator
name regardless of the key before it (so in particular the well-formed
form column,op=name parses to that column and trimmed name). -/
theorem parseTag_spec :
    (∀ tag : String, ',' ∉ tag.toList → parseTag tag = .ok (tag, "eq")) ∧
    (∀ col rest : String, ',' ∉ col.toList → '=' ∉ rest.toList →
      parseTag (col ++ "," ++ rest)
        = .error ("incorrectly formatted tag: " ++ (col ++ "," ++ rest))) ∧
    (∀ col key nm : String, ',' ∉ col.toList → '=' ∉ key.toList →
      parseTag (col ++ "," ++ key ++ "=" ++ nm)
        = .ok (col, trimSpace nm)) := by
  refine ⟨?_, ?_, ?_⟩
  · intro tag h
    unfold parseTag
    rw [cutChar_of_not_mem ',' tag.toList h]
  · intro col rest h1 h2
    have htl : (col ++ "," ++ rest).toList
        = col.toList ++ ',' :: rest.toList := by
      rw [string_toList_append, string_toList_append, List.append_assoc]
      rfl
    unfold parseTag
    rw [htl, cutChar_append ',' col.toList rest.toList h1]
    show (match cutChar '=' rest.toList with
      | none => Except.error ("incorrectly formatted tag: "
          ++ (col ++ "," ++ rest))
      | some (_, op) =>
        Except.ok (String.mk col.toList, trimSpace (String.mk op))) = _
    rw [cutChar_of_not_mem '=' rest.toList h2]
  · intro col key nm h1 h2
    have htl : (col ++ "," ++ key ++ "=" ++ nm).toList
        = col.toList ++ ',' :: (key.toList ++ '=' :: nm.toList) := by
      rw [string_toList_append, string_toList_append,
        string_toList_append, string_toList_append]
      rw [List.append_assoc, List.append_assoc, List.append_assoc]
      rfl
    unfold parseTag
    rw [htl,
      cutChar_append ',' col.toList (key.toList ++ '=' :: nm.toList) h1]
    show (match cutChar '=' (key.toList ++ '=' :: nm.toList) with
      | none => Except.error ("incorrectly formatted tag: "
          ++ (col ++ "," ++ key ++ "=" ++ nm))
      | some (_, op) =>
        Except.ok (String.mk col.toList, trimSpace (String.mk op))) = _
    rw [cutChar_append '=' key.toList nm.toList h2]
    show Except.ok (String.mk col.toList, trimSpace (String.mk nm.toList))
        = Except.ok (col, trimSpace nm)
    rw [string_mk_toList, string_mk_toList]

/-- C6 witness: the well-formed tag form with a whitespace-padded
operator name parses to the column and the trimmed name. -/
theorem parseTag_spec_witness :
    parseTag ("color" ++ "," ++ "op" ++ "=" ++ " in ")
      = .ok ("color", trimSpace (" in ")) :=
  parseTag_spec.2.2 "color" "op" " in " (by decide) (by decide)

/- Spec-side element coercion, following the spec's words "each element
coerced to its string representation": the decimal text of a number, the
string itself, true/false for a boolean.  Compared against the source's
Elem.goString. -/
def elemSpecString : Elem → String
  | .eStr s => s
  | .eInt i => toString i
  | .eUint n => toString n
  | .eBool b => if b then "true" else "false"

/-- C7 counterexample: on the integer slice [5, 7] the extractor returns
["<int Value>", "<int Value>"] — reflect.Value.String()'s constant
type-only placeholder — not the elements' string representations
["5", "7"]; indeed the slices [5] and [7] normalize to the very same
sequence, so the i-th output cannot be a representation of the i-th
element's value. -/
theorem readValue_slice_repr_cex :
    readValue (.fSlice [.eInt 5, .eInt 7])
      = .ok (some (.vStrList ["<int Value>", "<int Value>"])) ∧
    (Value.vStrList ["<int Value>", "<int Value>"])
      ≠ .vStrList ([Elem.eInt 5, Elem.eInt 7].map elemSpecString) ∧
    readValue (.fSlice [.eInt 5]) = readValue (.fSlice [.eInt 7]) := by
  refine ⟨rfl, by decide, rfl⟩

/-- C7 (amended): for every list/array-like field the extractor returns
the ordered sequence whose i-th element is reflect.Value.String() of the
i-th input element — the element itself when the element is a string
(so a string slice normalizes to exactly its elements, order preserved),
but the constant placeholder text "<int Value>" determined by the element
type alone for every integer element, and likewise for the other
non-string kinds. -/
theorem readValue_slice_goString :
    (∀ es : List Elem, readValue (.fSlice es)
        = .ok (some (.vStrList (es.map Elem.goString)))) ∧
    (∀ ss : List String, readValue (.fSlice (ss.map Elem.eStr))
        = .ok (some (.vStrList ss))) ∧
    (∀ i : Int, Elem.goString (.eInt i) = "<int Value>") := by
  refine ⟨fun es => rfl, fun ss => ?_, fun i => rfl⟩
  simp only [readValue, List.map_map]
  have hmap : (Elem.goString ∘ Elem.eStr) = (id : String → String) := by
    funext s
    rfl
  rw [hmap, List.map_id]

/-- C1 counterexample: a record with a single untagged field.  The claim
says untagged fields contribute no Clause at all, so the returned
sequence would be empty; buildClauses actually returns a one-element
sequence holding the zero Clause left in the untagged field's
preallocated slot. -/
theorem buildClauses_untagged_cex :
    buildClauses (.struct [⟨none, .fStr "x"⟩]) = .ok [Clause.zero] ∧
    ([Clause.zero] : List Clause) ≠ [] :=
  ⟨rfl, by decide⟩

/-- C1 (amended): buildClauses returns one Clause slot per visible field,
in declaration order: the slot of a tagged field holds the clause built
from its parsed tag and extracted value, while the slot of an untagged
field keeps the zero Clause (empty column and operator, nil value) that
rendering later skips — untagged fields therefore do occupy positions in
the returned sequence instead of being omitted. -/
theorem buildClauses_slot_per_field (fields : List Field)
    (cs : List Clause) (h : buildClauses (.struct fields) = .ok cs) :
    cs.length = fields.length ∧
    ∀ (i : Nat) (hi : i < fields.length) (hc : i < cs.length),
      ((fields.get ⟨i, hi⟩).tag = none → cs.get ⟨i, hc⟩ = Clause.zero) ∧
      (∀ t, (fields.get ⟨i, hi⟩).tag = some t →
        ∃ colName opName v, parseTag t = .ok (colName, opName) ∧
          readValue (fields.get ⟨i, hi⟩).value = .ok v ∧
          cs.get ⟨i, hc⟩ = ⟨colName, opName, v,
            derefIfApplicable (fields.get ⟨i, hi⟩).value⟩) := by
  induction fields generalizing cs with
  | nil =>
    have h2 : (Except.ok ([] : List Clause)
        : Except String (List Clause)) = .ok cs := h
    have hcs : cs = [] := (Except.ok.inj h2).symm
    subst hcs
    exact ⟨rfl, fun i hi _ => absurd hi (Nat.not_lt_zero i)⟩
  | cons fld rest ih =>
    cases htag : fld.tag with
    | none =>
      cases hr : buildClausesLoop rest with
      | error e =>
        have h2 : buildClauses (.struct (fld :: rest)) = .error e := by
          simp only [buildClauses, buildClausesLoop, htag, hr]
        rw [h2] at h
        exact absurd h (by simp)
      | ok cs2 =>
        have h2 : buildClauses (.struct (fld :: rest))
            = .ok (Clause.zero :: cs2) := by
          simp only [buildClauses, buildClausesLoop, htag, hr]
        rw [h2] at h
        have hcs : cs = Clause.zero :: cs2 := (Except.ok.inj h).symm
        subst hcs
        have ihh := ih cs2 hr
        refine ⟨by simp [ihh.1], ?_⟩
        intro i hi hc
        cases i with
        | zero =>
          refine ⟨fun _ => rfl, fun t ht => ?_⟩
          have ht2 : fld.tag = some t := ht
          rw [htag] at ht2
          exact absurd ht2 (by simp)
        | succ j =>
          exact ihh.2 j (Nat.lt_of_succ_lt_succ hi)
            (Nat.lt_of_succ_lt_succ hc)
    | some tg =>
      cases hp : parseTag tg with
      | error e =>
        have h2 : buildClauses (.struct (fld :: rest)) = .error e := by
          simp only [buildClauses, buildClausesLoop, htag, hp]
        rw [h2] at h
        exact absurd h (by simp)
      | ok pr =>
        obtain ⟨colName, opName⟩ := pr
        cases hv : readValue fld.value with
        | error e =>
          have h2 : buildClauses (.struct (fld :: rest)) = .error e := by
            simp only [buildClauses, buildClausesLoop, htag, hp, hv]
          rw [h2] at h
          exact absurd h (by simp)
        | ok v =>
          cases hr : buildClausesLoop rest with
          | error e =>
            have h2 : buildClauses (.struct (fld :: rest))
                = .error e := by
              simp only [buildClauses, buildClausesLoop, htag, hp, hv, hr]
            rw [h2] at h
            exact absurd h (by simp)
          | ok cs2 =>
            have h2 : buildClauses (.struct (fld :: rest))
                = .ok ((⟨colName, opName, v,
                    derefIfApplicable fld.value⟩ : Clause) :: cs2) := by
              simp only [buildClauses, buildClausesLoop, htag, hp, hv, hr]
            rw [h2] at h
            have hcs : cs = ⟨colName, opName, v,
                derefIfApplicable fld.value⟩ :: cs2 :=
              (Except.ok.inj h).symm
            subst hcs
            have ihh := ih cs2 hr
            refine ⟨by simp [ihh.1], ?_⟩
            intro i hi hc
            cases i with
            | zero =>
              refine ⟨fun hnone => ?_, fun t ht => ?_⟩
              · have hn2 : fld.tag = none := hnone
                rw [htag] at hn2
                exact absurd hn2 (by simp)
              · have ht2 : fld.tag = some t := ht
                rw [htag] at ht2
                have htt : t = tg := (Option.some.inj ht2).symm
                subst htt
                exact ⟨colName, opName, v, hp, hv, rfl⟩
            | succ j =>
              exact ihh.2 j (Nat.lt_of_succ_lt_succ hi)
                (Nat.lt_of_succ_lt_succ hc)

/-- C1 witness: a two-field record — one untagged, one tagged slice
field — instantiating the slot description at the tagged index 1. -/
theorem buildClauses_slot_per_field_witness :
    ∃ colName opName v, parseTag ("color,op=in") = .ok (colName, opName) ∧
      readValue (FieldVal.fSlice [Elem.eStr "a"]) = .ok v ∧
      List.get [Clause.zero,
          (⟨"color", "in", some (.vStrList ["a"]),
            .fSlice [.eStr "a"]⟩ : Clause)] ⟨1, by decide⟩
        = ⟨colName, opName, v,
            derefIfApplicable (FieldVal.fSlice [Elem.eStr "a"])⟩ :=
  ((buildClauses_slot_per_field
      [⟨none, .fStr "x"⟩, ⟨some ("color,op=in"), .fSlice [.eStr "a"]⟩]
      [Clause.zero,
        ⟨"color", "in", some (.vStrList ["a"]), .fSlice [.eStr "a"]⟩]
      rfl).2 1 (by decide) (by decide)).2 "color,op=in" rfl

end QueryFilter
